import Mathlib

set_option maxRecDepth 4000

/-!
# Verification of the h2s-proxy request-routing core

Shallow embedding of the `h2s-proxy` repository (Go): the rule matcher
(`domain.Profile.MatchRule`), the header sanitizers
(`removeHopByHopHeader`, `addHost2XForwardHeader`, `copyHeader`) and the
request dispatcher (`proxyHandler`), together with the parts of Go's
standard library (Go 1.19, per `go.mod`) that these functions call:
`net.ParseIP`, `net.ParseCIDR`, `net.IPNet.Contains`, `net.SplitHostPort`
and `textproto.CanonicalMIMEHeaderKey`.

Byte strings are modelled as Lean `String`/`List Char` (all relevant data
is ASCII); Go byte slices of IP addresses are `List Nat` with each entry a
byte value, and Go's `nil` slice is the empty list.
-/

namespace H2S

/-! ## Go `net/textproto`: canonical MIME header keys

`http.Header` is a Go `map[string][]string` keyed by canonical MIME header
keys.  We model a header as an association list with pairwise-distinct
keys (a Go map has no duplicate keys; Go's map iteration order is
unspecified, the list order stands in for one such order, and every proved
property is insensitive to the order of distinct keys). -/

/-- Go `textproto.validHeaderFieldByte`: membership in the RFC 7230 token
character table. -/
def isTokenChar (c : Char) : Bool :=
  let n := c.toNat
  (48 ≤ n && n ≤ 57) || (65 ≤ n && n ≤ 90) || (97 ≤ n && n ≤ 122) ||
  n == 33 || n == 35 || n == 36 || n == 37 || n == 38 || n == 39 ||
  n == 42 || n == 43 || n == 45 || n == 46 || n == 94 || n == 95 ||
  n == 96 || n == 124 || n == 126

/-- The per-byte loop of Go `textproto.canonicalMIMEHeaderKey`: uppercase
a letter that starts the key or follows a hyphen, lowercase every other
letter.  `Char.toUpper`/`Char.toLower` are the same ±32 ASCII arithmetic
Go performs on bytes. -/
def canonChars : Bool → List Char → List Char
  | _, [] => []
  | upper, c :: cs =>
    let c2 := if upper then c.toUpper else c.toLower
    c2 :: canonChars (c2 == '-') cs

/-- Go `textproto.CanonicalMIMEHeaderKey`: if any byte is not a valid
header-field byte the key is returned unchanged, otherwise it is
canonicalized. -/
def canonicalMIMEHeaderKey (s : String) : String :=
  if s.data.all isTokenChar then ⟨canonChars true s.data⟩ else s

/-- Go `http.Header` (= `map[string][]string`). -/
abbrev Header := List (String × List String)

/-- Go map lookup `h[k]` (no canonicalization: Go indexes the map
directly). `none` models a missing key. -/
def lookupH : Header → String → Option (List String)
  | [], _ => none
  | e :: rest, k => if e.1 = k then some e.2 else lookupH rest k

/-- `http.Header.Del`: `delete(h, CanonicalMIMEHeaderKey(key))`. -/
def delH (h : Header) (key : String) : Header :=
  h.filter (fun e => e.1 != canonicalMIMEHeaderKey key)

/-- Replace the value of `k` if present, else insert `(k, vs)`; the model
of a Go map assignment `h[k] = vs` on an association list. -/
def setEntry : Header → String → List String → Header
  | [], k, vs => [(k, vs)]
  | e :: rest, k, vs => if e.1 = k then (k, vs) :: rest else e :: setEntry rest k vs

/-- `http.Header.Set`: `h[CanonicalMIMEHeaderKey(key)] = []string{value}`. -/
def setH (h : Header) (key value : String) : Header :=
  setEntry h (canonicalMIMEHeaderKey key) [value]

/-- The Go map assignment `h[k] = append(h[k], v)` on an association list. -/
def addEntry : Header → String → String → Header
  | [], k, v => [(k, [v])]
  | e :: rest, k, v =>
    if e.1 = k then (e.1, e.2 ++ [v]) :: rest else e :: addEntry rest k v

/-- `http.Header.Add`: append `value` to the values of the canonical key. -/
def addH (h : Header) (key value : String) : Header :=
  addEntry h (canonicalMIMEHeaderKey key) value

/-! ## The header sanitizers of `main.go` -/

/-- `var hopByHopHeaders = []string{...}` (both `main.go` variants). -/
def hopByHopHeaders : List String :=
  ["Proxy-Connection", "Keep-Alive", "TE", "Transfer-Encoding", "Upgrade"]

/-- `removeHopByHopHeader`: `for _, h := range hopByHopHeaders { header.Del(h) }`. -/
def removeHopByHopHeader (header : Header) : Header :=
  hopByHopHeaders.foldl (fun h n => delH h n) header

/-- `addHost2XForwardHeader`: `nextValue` starts as the empty string and is
only replaced by the comma-joined chain when a prior `X-Forwarded-For`
entry exists; `strings.Join` is `String.intercalate`. -/
def addHost2XForwardHeader (header : Header) (host : String) : Header :=
  let nextValue :=
    match lookupH header "X-Forwarded-For" with
    | some prior => String.intercalate ", " prior ++ ", " ++ host
    | none => ""
  setH header "X-Forwarded-For" nextValue

/-- `copyHeader`: `for k, vv := range src { for _, v := range vv { dst.Add(k, v) } }`. -/
def copyHeader (dst src : Header) : Header :=
  src.foldl (fun d e => e.2.foldl (fun d2 v => addH d2 e.1 v) d) dst

/-! ## Go 1.19 `net`: IP address and CIDR parsing

`net.IP` is a byte slice: `List Nat` here, with `[]` standing for Go's
`nil` (every Go operation below distinguishes `nil` only by `len(ip)`).
An IPv4 address parses to the 16-byte IPv4-in-IPv6 form, exactly as
`net.IPv4` builds it. -/

/-- Go `v4InV6Prefix`: the first 12 bytes of an IPv4-in-IPv6 address. -/
def v4InV6 : List Nat := [0, 0, 0, 0, 0, 0, 0, 0, 0, 0, 255, 255]

/-- Go `net.dtoi`: parse leading decimal digits; returns
(value, characters consumed, ok).  `big` is `0xFFFFFF`. -/
def dtoiAux : List Char → Nat → Nat → Nat × Nat × Bool
  | [], n, i => if i = 0 then (0, 0, false) else (n, i, true)
  | c :: cs, n, i =>
    if 48 ≤ c.toNat ∧ c.toNat ≤ 57 then
      let n2 := n * 10 + (c.toNat - 48)
      if n2 ≥ 16777215 then (16777215, i + 1, false)
      else dtoiAux cs n2 (i + 1)
    else if i = 0 then (0, 0, false) else (n, i, true)

def dtoi (s : List Char) : Nat × Nat × Bool := dtoiAux s 0 0

/-- Hex digit value per Go `net.xtoi`'s three ranges. -/
def hexVal (c : Char) : Option Nat :=
  let n := c.toNat
  if 48 ≤ n ∧ n ≤ 57 then some (n - 48)
  else if 97 ≤ n ∧ n ≤ 102 then some (n - 97 + 10)
  else if 65 ≤ n ∧ n ≤ 70 then some (n - 65 + 10)
  else none

/-- Go `net.xtoi`: parse leading hexadecimal digits; on overflow past
`big` it reports failure. -/
def xtoiAux : List Char → Nat → Nat → Nat × Nat × Bool
  | [], n, i => if i = 0 then (0, 0, false) else (n, i, true)
  | c :: cs, n, i =>
    match hexVal c with
    | some d =>
      let n2 := n * 16 + d
      if n2 ≥ 16777215 then (0, i, false)
      else xtoiAux cs n2 (i + 1)
    | none => if i = 0 then (0, 0, false) else (n, i, true)

def xtoi (s : List Char) : Nat × Nat × Bool := xtoiAux s 0 0

/-- One step of Go 1.19 `net.parseIPv4`'s loop over the four octets:
`k` octets remain, `p` holds those already parsed.  The dot separator is
consumed before every octet but the first, each octet is `dtoi`-parsed,
must be at most 255, and a multi-digit octet may not start with `'0'`. -/
def parseIPv4Octets : Nat → List Char → List Nat → Option (List Nat)
  | 0, s, p => if s = [] then some p else none
  | k + 1, s, p =>
    if s = [] then none
    else
      match (if p = [] then some s
             else if s.head? = some '.' then some (s.drop 1) else none) with
      | none => none
      | some t =>
        if ¬(dtoi t).2.2 ∨ (dtoi t).1 > 255 then none
        else if (dtoi t).2.1 > 1 ∧ t.head? = some '0' then none
        else parseIPv4Octets k (t.drop (dtoi t).2.1) (p ++ [(dtoi t).1])

/-- Go 1.19 `net.parseIPv4`: on success returns `net.IPv4(...)`, the
16-byte IPv4-in-IPv6 form; `none` models the `nil` result. -/
def parseIPv4Go (s : List Char) : Option (List Nat) :=
  (parseIPv4Octets 4 s []).map (fun p => v4InV6 ++ p)

/-- Index of the last occurrence of `c` in `s`, Go `byteLastIndex`. -/
def lastIndexChar (s : List Char) (c : Char) : Option Nat :=
  match s.reverse.findIdx? (· = c) with
  | none => none
  | some j => some (s.length - 1 - j)

/-- Go `net.splitHostZone`: the zone identifier starts after the last
`'%'` sign when its index is positive; the callers modelled here
(`ParseIP`, `ParseCIDR`) all discard the zone, so only the host part is
returned. -/
def splitHostZone (s : List Char) : List Char :=
  match lastIndexChar s '%' with
  | some i => if 0 < i then s.take i else s
  | none => s

/-- Post-loop phase of Go 1.19 `net.parseIPv6`: the whole string must be
consumed; a short address needs an ellipsis, which expands to zero bytes
in the middle; a full address must not also carry an ellipsis. -/
def parseIPv6Fin (s : List Char) (ip : List Nat) (ell : Option Nat) : Option (List Nat) :=
  if s ≠ [] then none
  else if ip.length < 16 then
    match ell with
    | none => none
    | some e => some (ip.take e ++ List.replicate (16 - ip.length) 0 ++ ip.drop e)
  else
    match ell with
    | some _ => none
    | none => some ip

/-- The `for i < IPv6len` loop of Go 1.19 `net.parseIPv6`.  `ip` holds the
bytes written so far (so Go's `i` is `ip.length`), `ell` the ellipsis
position.  Every iteration appends two bytes (or four and stops), so the
loop runs at most eight times; `fuel = 8` therefore never runs out before
the `i < 16` guard stops the loop. -/
def parseIPv6Loop : Nat → List Char → List Nat → Option Nat → Option (List Nat)
  | 0, s, ip, ell =>
    if ip.length < 16 then none else parseIPv6Fin s ip ell
  | fuel + 1, s, ip, ell =>
    if ip.length < 16 then
        let t := xtoi s
        if ¬t.2.2 ∨ t.1 > 65535 then none
        else if t.2.1 < s.length ∧ s.get? t.2.1 = some '.' then
          if ell = none ∧ ip.length ≠ 12 then none
          else if ip.length + 4 > 16 then none
          else
            match parseIPv4Go s with
            | none => none
            | some ip4 => parseIPv6Fin [] (ip ++ ip4.drop 12) ell
        else
          let ip2 := ip ++ [t.1 / 256, t.1 % 256]
          let s2 := s.drop t.2.1
          if s2 = [] then parseIPv6Fin s2 ip2 ell
          else if s2.head? ≠ some ':' ∨ s2.length = 1 then none
          else
            let s3 := s2.drop 1
            if s3.head? = some ':' then
              if ell.isSome then none
              else
                let s4 := s3.drop 1
                if s4 = [] then parseIPv6Fin s4 ip2 (some ip2.length)
                else parseIPv6Loop fuel s4 ip2 (some ip2.length)
            else parseIPv6Loop fuel s3 ip2 ell
    else parseIPv6Fin s ip ell

/-- Go 1.19 `net.parseIPv6` (zone already split off by the caller). -/
def parseIPv6Go (s : List Char) : Option (List Nat) :=
  if s.take 2 = [':', ':'] then
    if s.drop 2 = [] then some (List.replicate 16 0)
    else parseIPv6Loop 8 (s.drop 2) [] (some 0)
  else parseIPv6Loop 8 s [] none

/-- Go 1.19 `net.ParseIP`: dispatch on the first `'.'` or `':'`; the
IPv6 branch goes through `parseIPv6Zone`, which splits off (and `ParseIP`
then discards) the zone.  The empty list is Go's `nil` result. -/
def ParseIP (s : String) : List Nat :=
  match s.data.find? (fun c => c == '.' || c == ':') with
  | some c =>
    if c = '.' then (parseIPv4Go s.data).getD []
    else (parseIPv6Go (splitHostZone s.data)).getD []
  | none => []

/-- Go `net.CIDRMask`'s byte loop: `l` bytes, `n` leading one bits. -/
def cidrMaskBytes : Nat → Nat → List Nat
  | 0, _ => []
  | l + 1, n =>
    if n ≥ 8 then 255 :: cidrMaskBytes l (n - 8)
    else (255 ^^^ (255 >>> n)) :: cidrMaskBytes l 0

/-- Go `net.CIDRMask ones bits`; `[]` models the `nil` mask. -/
def cidrMask (ones bits : Nat) : List Nat :=
  if bits ≠ 32 ∧ bits ≠ 128 then []
  else if ones > bits then []
  else cidrMaskBytes (bits / 8) ones

/-- Go `net.IP.Mask`: adjust a 16-byte mask to a 4-byte IP (and a 4-byte
mask to a mapped 16-byte IP), then AND byte by byte; mismatched lengths
give `nil`. -/
def maskIP (ip0 m0 : List Nat) : List Nat :=
  let m := if m0.length = 16 ∧ ip0.length = 4 ∧ (m0.take 12).all (· = 255)
           then m0.drop 12 else m0
  let ip := if m.length = 4 ∧ ip0.length = 16 ∧ ip0.take 12 = v4InV6
            then ip0.drop 12 else ip0
  if ip.length ≠ m.length then []
  else List.zipWith (fun a b => Nat.land a b) ip m

/-- Go 1.19 `net.ParseCIDR`: split at the first `'/'`, parse the address
part (IPv4 first, then IPv6 with zone split), parse the prefix length
with `dtoi` (it must consume the whole mask string and fit the address
family), and build the `IPNet` of masked network address and mask.
`n < 0` cannot occur (`dtoi` never yields a negative value).  The
unmasked first return value is unused by this repository. -/
def ParseCIDR (s : String) : Option (List Nat × List Nat) :=
  match s.data.findIdx? (· == '/') with
  | none => none
  | some i =>
    let addr := s.data.take i
    let mask := s.data.drop (i + 1)
    let (ip, iplen) :=
      match parseIPv4Go addr with
      | some ip => (ip, 4)
      | none => ((parseIPv6Go (splitHostZone addr)).getD [], 16)
    let d := dtoi mask
    if ip = [] ∨ ¬d.2.2 ∨ d.2.1 ≠ mask.length ∨ d.1 > 8 * iplen then none
    else some (maskIP ip (cidrMask d.1 (8 * iplen)), cidrMask d.1 (8 * iplen))

/-- Go `net.IP.To4`: a 4-byte address itself, the low 4 bytes of an
IPv4-in-IPv6 address, otherwise `nil`. -/
def to4 (ip : List Nat) : List Nat :=
  if ip.length = 4 then ip
  else if ip.length = 16 ∧ (ip.take 10).all (· = 0) ∧
          ip.get? 10 = some 255 ∧ ip.get? 11 = some 255
  then ip.drop 12 else []

/-- Go `net.networkNumberAndMask`: normalize the network address to 4
bytes when possible and cut a 16-byte mask down to match; `none` models
the `nil, nil` result for a malformed `IPNet` (unreachable from
`ParseCIDR` outputs). -/
def networkNumberAndMask (nIP nMask : List Nat) : Option (List Nat × List Nat) :=
  match (if to4 nIP ≠ [] then some (to4 nIP)
         else if nIP.length = 16 then some nIP else none) with
  | none => none
  | some ip =>
    if nMask.length = 4 then
      if ip.length ≠ 4 then none else some (ip, nMask)
    else if nMask.length = 16 then
      some (ip, if ip.length = 4 then nMask.drop 12 else nMask)
    else none

/-- Go `net.IPNet.Contains`.  `nn` and `m` always have equal length when
`networkNumberAndMask` succeeds, so the byte-by-byte comparison loop is a
`zipWith`; the `nil, nil` case makes both empty, reproducing Go's
behaviour of comparing zero bytes. -/
def ipNetContains (nIP nMask ip0 : List Nat) : Bool :=
  let nm := (networkNumberAndMask nIP nMask).getD ([], [])
  let x := to4 ip0
  let ip := if x ≠ [] then x else ip0
  if ip.length ≠ nm.1.length then false
  else List.zipWith (fun a b => Nat.land a b) nm.1 nm.2 ==
       List.zipWith (fun a b => Nat.land a b) ip nm.2

/-! ## `domain`: the profile and the rule matcher -/

/-- `domain.Rule`. -/
structure Rule where
  name : String
  proxyType : String
  proxyIP : String
  port : String
  patterns : List String
deriving DecidableEq, Repr

/-- `domain.Profile`. -/
structure Profile where
  serverHost : String
  serverPort : String
  rules : List Rule
deriving DecidableEq, Repr

/-- The outcome of `Profile.MatchRule`: a matched rule with `nil` error, a
CIDR parse error (the `error` returned by `net.ParseCIDR`, carrying the
offending pattern), or the distinguished sentinel `domain.ErrNotFoundRule`. -/
inductive MatchResult where
  | found : Rule → MatchResult
  | parseError : String → MatchResult
  | errNotFoundRule : MatchResult
deriving DecidableEq, Repr

/-- The inner `for _, ptn := range rule.Patterns` loop of
`Profile.MatchRule`: `net.ParseIP(path)` is recomputed each iteration, a
`net.ParseCIDR` failure returns that error immediately, a containing
pattern returns the rule; `none` means the loop fell through. -/
def matchPatterns (path : String) (rule : Rule) : List String → Option MatchResult
  | [] => none
  | ptn :: rest =>
    let ip := ParseIP path
    match ParseCIDR ptn with
    | none => some (MatchResult.parseError ptn)
    | some nm =>
      if ipNetContains nm.1 nm.2 ip then some (MatchResult.found rule)
      else matchPatterns path rule rest

/-- The outer `for _, rule := range p.Rules` loop of `Profile.MatchRule`. -/
def matchRules (path : String) : List Rule → MatchResult
  | [] => MatchResult.errNotFoundRule
  | r :: rs =>
    match matchPatterns path r r.patterns with
    | some res => res
    | none => matchRules path rs

/-- `domain.Profile.MatchRule`. -/
def Profile.MatchRule (p : Profile) (path : String) : MatchResult :=
  matchRules path p.rules

/-- Does `ptn` parse as a CIDR whose block contains `ParseIP host`?  The
per-pattern test `Profile.MatchRule` applies when the pattern parses. -/
def patternMatches (host ptn : String) : Bool :=
  match ParseCIDR ptn with
  | some nm => ipNetContains nm.1 nm.2 (ParseIP host)
  | none => false

/-! ## Go `net.SplitHostPort` and the proxy dispatcher -/

/-- Go `net.SplitHostPort`: the port starts after the last colon; a
leading `'['` requires the first `']'` to sit just before that colon; a
bare host may contain no further colon and no brackets.  `none` models
every `AddrError` (missing port, too many colons, stray brackets). -/
def splitHostPort (hostPort : List Char) : Option (List Char × List Char) :=
  match lastIndexChar hostPort ':' with
  | none => none
  | some i =>
    if hostPort.head? = some '[' then
      match hostPort.findIdx? (· == ']') with
      | none => none
      | some e =>
        if e + 1 = hostPort.length then none
        else if e + 1 = i then
          if (hostPort.drop 1).contains '[' then none
          else if (hostPort.drop (e + 1)).contains ']' then none
          else some ((hostPort.take e).drop 1, hostPort.drop (i + 1))
        else none
    else
      if (hostPort.take i).contains ':' then none
      else if hostPort.contains '[' then none
      else if hostPort.contains ']' then none
      else some (hostPort.take i, hostPort.drop (i + 1))

/-- The parts of `http.Request` the handler reads or writes:
`req.URL.Scheme`, `req.URL.Host`, `req.Header`, `req.RequestURI`. -/
structure Request where
  scheme : String
  urlHost : String
  header : Header
  requestURI : String
deriving DecidableEq, Repr

/-- What one call of the handler does, as observable from outside:
answer the client with an HTTP error status and perform no outbound
request; exit the whole process (`log.Fatalf`); or hand the rewritten
request to `client.Do`, either through a SOCKS5 dialer bound to
`proxyAddr` or directly. -/
inductive Outcome where
  | respondError (status : Nat) (msg : String)
  | processExit
  | forward (viaSocks : Bool) (proxyAddr : String) (req : Request)
deriving DecidableEq, Repr

/-- `H2SProxyServer.proxyHandler` of `src/main.go` (the zap-logging
variant), up to the `client.Do` call: scheme gate (400), host:port split
(500 on failure, via `logger.Errorf`), header sanitizing, rule match
(500 on a non-`ErrNotFoundRule` error), `RequestURI` cleared, then the
transport choice.  `proxy.SOCKS5` with network `"tcp"` never returns an
error, so dialer construction always succeeds; the SOCKS5 address is
`fmt.Sprintf("%v:%v", rule.ProxyIP, rule.Port)`. -/
def proxyHandler (p : Profile) (req : Request) : Outcome :=
  if req.scheme ≠ "http" ∧ req.scheme ≠ "https" then
    Outcome.respondError 400 ("unsupported protocal scheme " ++ req.scheme)
  else
    match splitHostPort req.urlHost.data with
    | none => Outcome.respondError 500 "unexpected error"
    | some hp =>
      let host : String := ⟨hp.1⟩
      let hdr := addHost2XForwardHeader (removeHopByHopHeader req.header) host
      let req2 : Request := { req with header := hdr, requestURI := "" }
      match p.MatchRule host with
      | MatchResult.parseError _ => Outcome.respondError 500 "unexpected error"
      | MatchResult.found rule =>
        Outcome.forward true (rule.proxyIP ++ ":" ++ rule.port) req2
      | MatchResult.errNotFoundRule => Outcome.forward false "" req2

/-- `H2SProxyServer.proxyHandler` of the log-based `main.go` variant
(`src/unnamed/part_001`): identical control flow except that a
`SplitHostPort` failure runs `log.Fatalf`, which exits the process, so
the `http.Error(wr, "unexpected error", 500)` and `return` that follow it
are unreachable. -/
def proxyHandlerOld (p : Profile) (req : Request) : Outcome :=
  if req.scheme ≠ "http" ∧ req.scheme ≠ "https" then
    Outcome.respondError 400 ("unsupported protocal scheme " ++ req.scheme)
  else
    match splitHostPort req.urlHost.data with
    | none => Outcome.processExit
    | some hp =>
      let host : String := ⟨hp.1⟩
      let hdr := addHost2XForwardHeader (removeHopByHopHeader req.header) host
      let req2 : Request := { req with header := hdr, requestURI := "" }
      match p.MatchRule host with
      | MatchResult.parseError _ => Outcome.respondError 500 "unexpected error"
      | MatchResult.found rule =>
        Outcome.forward true (rule.proxyIP ++ ":" ++ rule.port) req2
      | MatchResult.errNotFoundRule => Outcome.forward false "" req2

/-! ## Lemmas about the rule matcher -/

theorem matchPatterns_eq_of_ok (path : String) (r : Rule) (ptns : List String)
    (hok : ∀ ptn ∈ ptns, (ParseCIDR ptn).isSome) :
    matchPatterns path r ptns =
      if ptns.any (fun ptn => patternMatches path ptn) then some (MatchResult.found r)
      else none := by
  induction ptns with
  | nil => simp [matchPatterns]
  | cons q qs ih =>
    have hq := hok q (List.mem_cons_self q qs)
    cases hc : ParseCIDR q with
    | none => rw [hc] at hq; simp at hq
    | some nm =>
      by_cases hb : ipNetContains nm.1 nm.2 (ParseIP path)
      · simp [matchPatterns, hc, hb, patternMatches]
      · have hrest := ih (fun x hx => hok x (List.mem_cons_of_mem q hx))
        simp [matchPatterns, hc, hb, patternMatches, hrest]

theorem matchRules_eq_of_ok (path : String) (rules : List Rule)
    (hok : ∀ r ∈ rules, ∀ ptn ∈ r.patterns, (ParseCIDR ptn).isSome) :
    matchRules path rules =
      match rules.find? (fun r => r.patterns.any (fun ptn => patternMatches path ptn)) with
      | some r => MatchResult.found r
      | none => MatchResult.errNotFoundRule := by
  induction rules with
  | nil => simp [matchRules]
  | cons r rs ih =>
    have hr := matchPatterns_eq_of_ok path r r.patterns
      (hok r (List.mem_cons_self r rs))
    have hrest := ih (fun x hx => hok x (List.mem_cons_of_mem r hx))
    by_cases hb : r.patterns.any (fun ptn => patternMatches path ptn)
    · simp [matchRules, hr, hb, List.find?_cons_of_pos]
    · rw [Bool.not_eq_true] at hb
      simp [matchRules, hr, hb, List.find?_cons_of_neg, hrest]

theorem matchPatterns_none (path : String) (r : Rule) (ptns : List String)
    (h : ∀ ptn ∈ ptns, (ParseCIDR ptn).isSome ∧ patternMatches path ptn = false) :
    matchPatterns path r ptns = none := by
  rw [matchPatterns_eq_of_ok path r ptns (fun x hx => (h x hx).1)]
  have : ptns.any (fun ptn => patternMatches path ptn) = false := by
    simp only [List.any_eq_false]
    intro x hx
    simp [(h x hx).2]
  simp [this]

theorem matchPatterns_hits_bad (path : String) (r : Rule)
    (ps1 : List String) (bad : String) (ps2 : List String)
    (hps1 : ∀ ptn ∈ ps1, (ParseCIDR ptn).isSome ∧ patternMatches path ptn = false)
    (hbad : ParseCIDR bad = none) :
    matchPatterns path r (ps1 ++ bad :: ps2) = some (MatchResult.parseError bad) := by
  induction ps1 with
  | nil => simp [matchPatterns, hbad]
  | cons q qs ih =>
    have hq := hps1 q (List.mem_cons_self q qs)
    obtain ⟨nm, hnm⟩ := Option.isSome_iff_exists.mp hq.1
    have hb : ipNetContains nm.1 nm.2 (ParseIP path) = false := by
      have := hq.2
      rw [patternMatches, hnm] at this
      exact this
    have hrest := ih (fun x hx => hps1 x (List.mem_cons_of_mem q hx))
    simp [matchPatterns, hnm, hb, hrest]

theorem matchRules_hits_bad (path : String) (pre post : List Rule) (r : Rule)
    (ps1 ps2 : List String) (bad : String)
    (hpats : r.patterns = ps1 ++ bad :: ps2)
    (hpre : ∀ q ∈ pre, ∀ ptn ∈ q.patterns,
      (ParseCIDR ptn).isSome ∧ patternMatches path ptn = false)
    (hps1 : ∀ ptn ∈ ps1, (ParseCIDR ptn).isSome ∧ patternMatches path ptn = false)
    (hbad : ParseCIDR bad = none) :
    matchRules path (pre ++ r :: post) = MatchResult.parseError bad := by
  induction pre with
  | nil =>
    have := matchPatterns_hits_bad path r ps1 bad ps2 hps1 hbad
    rw [← hpats] at this
    simp [matchRules, this]
  | cons q qs ih =>
    have hq := matchPatterns_none path q q.patterns
      (hpre q (List.mem_cons_self q qs))
    have hrest := ih (fun x hx => hpre x (List.mem_cons_of_mem q hx))
    simp [matchRules, hq, hrest]

/-- C1: for a profile whose patterns all parse, `MatchRule` returns the
first rule (in declared rule order; a rule fires on its first containing
pattern in declared pattern order) one of whose patterns contains the
parsed host, with no error, and the sentinel `ErrNotFoundRule` when no
pattern contains the host. -/
theorem matchRule_first_match (p : Profile) (h : String)
    (hok : ∀ r ∈ p.rules, ∀ ptn ∈ r.patterns, (ParseCIDR ptn).isSome) :
    p.MatchRule h =
      match p.rules.find? (fun r => r.patterns.any (fun ptn => patternMatches h ptn)) with
      | some r => MatchResult.found r
      | none => MatchResult.errNotFoundRule :=
  matchRules_eq_of_ok h p.rules hok

/-- The `"internal"` rule of the spec's scenario. -/
def internalRule : Rule :=
  { name := "internal", proxyType := "socks5", proxyIP := "127.0.0.1",
    port := "1080", patterns := ["10.0.0.0/8"] }

/-- A later rule that also matches `10.x`, to exercise first-match order. -/
def wideRule : Rule :=
  { name := "wide", proxyType := "socks5", proxyIP := "127.0.0.1",
    port := "1081", patterns := ["10.0.0.0/8", "0.0.0.0/0"] }

def sampleProfile : Profile :=
  { serverHost := "localhost", serverPort := "8080", rules := [internalRule, wideRule] }

def onlyInternalProfile : Profile :=
  { serverHost := "localhost", serverPort := "8080", rules := [internalRule] }

theorem matchRule_first_match_witness :
    (∀ r ∈ sampleProfile.rules, ∀ ptn ∈ r.patterns, (ParseCIDR ptn).isSome) ∧
      sampleProfile.MatchRule "10.1.2.3" = MatchResult.found internalRule ∧
      onlyInternalProfile.MatchRule "8.8.8.8" = MatchResult.errNotFoundRule :=
  ⟨by decide,
   (matchRule_first_match sampleProfile "10.1.2.3" (by decide)).trans (by decide),
   (matchRule_first_match onlyInternalProfile "8.8.8.8" (by decide)).trans (by decide)⟩

/-- C3: when evaluation in declared (rule, then pattern) order first
reaches a pattern that does not parse as a CIDR — all earlier patterns
parse and none of them contains the host — `MatchRule` returns the parse
error, which is neither `ErrNotFoundRule` nor any matched rule, and the
result does not depend on the patterns and rules that come later (`ps2`
and `post` are arbitrary, so a later pattern that would contain the host
is never consulted). -/
theorem matchRule_abort_on_bad_pattern (p : Profile) (h : String)
    (pre post : List Rule) (r : Rule) (ps1 ps2 : List String) (bad : String)
    (hrules : p.rules = pre ++ r :: post)
    (hpats : r.patterns = ps1 ++ bad :: ps2)
    (hpre : ∀ q ∈ pre, ∀ ptn ∈ q.patterns,
      (ParseCIDR ptn).isSome ∧ patternMatches h ptn = false)
    (hps1 : ∀ ptn ∈ ps1, (ParseCIDR ptn).isSome ∧ patternMatches h ptn = false)
    (hbad : ParseCIDR bad = none) :
    p.MatchRule h = MatchResult.parseError bad ∧
      MatchResult.parseError bad ≠ MatchResult.errNotFoundRule ∧
      ∀ r2 : Rule, MatchResult.parseError bad ≠ MatchResult.found r2 := by
  refine ⟨?_, by simp, by simp⟩
  rw [Profile.MatchRule, hrules]
  exact matchRules_hits_bad h pre post r ps1 ps2 bad hpats hpre hps1 hbad

/-- A first rule that parses but does not contain `10.1.2.3`. -/
def safeRule : Rule :=
  { name := "safe", proxyType := "socks5", proxyIP := "127.0.0.1",
    port := "1080", patterns := ["192.168.0.0/16"] }

/-- A rule whose second pattern is malformed and whose third would match
everything. -/
def badPatternRule : Rule :=
  { name := "bad", proxyType := "socks5", proxyIP := "127.0.0.1",
    port := "1080", patterns := ["172.16.0.0/12", "not-a-cidr", "0.0.0.0/0"] }

def badProfile : Profile :=
  { serverHost := "localhost", serverPort := "8080", rules := [safeRule, badPatternRule] }

theorem cidrMaskBytes_length (l : Nat) : ∀ n, (cidrMaskBytes l n).length = l := by
  induction l with
  | zero => intro n; rfl
  | succ k ih => intro n; rw [cidrMaskBytes]; split <;> simp [ih]

theorem cidrMask_length_32 (n : Nat) (h : n ≤ 32) : (cidrMask n 32).length = 4 := by
  rw [cidrMask]
  simp only [if_neg (by omega : ¬((32 : Nat) ≠ 32 ∧ (32 : Nat) ≠ 128)),
    if_neg (by omega : ¬(n > 32))]
  exact cidrMaskBytes_length 4 n

theorem cidrMask_length_128 (n : Nat) (h : n ≤ 128) : (cidrMask n 128).length = 16 := by
  rw [cidrMask]
  simp only [if_neg (by omega : ¬((128 : Nat) ≠ 32 ∧ (128 : Nat) ≠ 128)),
    if_neg (by omega : ¬(n > 128))]
  exact cidrMaskBytes_length 16 n

theorem parseIPv4Octets_length (k : Nat) :
    ∀ (s : List Char) (acc res : List Nat),
      parseIPv4Octets k s acc = some res → res.length = acc.length + k := by
  induction k with
  | zero =>
    intro s acc res h
    rw [parseIPv4Octets] at h
    split at h
    · simp only [Option.some.injEq] at h
      subst h
      simp
    · simp at h
  | succ k ih =>
    intro s acc res h
    rw [parseIPv4Octets] at h
    split at h
    · simp at h
    · split at h
      · simp at h
      · split at h
        · simp at h
        · split at h
          · simp at h
          · have := ih _ _ _ h
            simp only [List.length_append, List.length_cons, List.length_nil] at this
            omega

theorem parseIPv4Go_struct (s : List Char) (ip : List Nat)
    (h : parseIPv4Go s = some ip) : ∃ p, ip = v4InV6 ++ p ∧ p.length = 4 := by
  rw [parseIPv4Go] at h
  cases ho : parseIPv4Octets 4 s [] with
  | none => rw [ho] at h; simp at h
  | some p =>
    rw [ho] at h
    simp only [Option.map_some', Option.some.injEq] at h
    exact ⟨p, h.symm, by simpa using parseIPv4Octets_length 4 s [] p ho⟩

theorem parseIPv4Go_length (s : List Char) (ip : List Nat)
    (h : parseIPv4Go s = some ip) : ip.length = 16 := by
  obtain ⟨p, hp, hl⟩ := parseIPv4Go_struct s ip h
  subst hp
  simp [v4InV6, hl]

theorem parseIPv6Fin_length (s : List Char) (ip : List Nat) (ell : Option Nat)
    (res : List Nat) (hlen : ip.length ≤ 16)
    (hell : ∀ e, ell = some e → e ≤ ip.length)
    (h : parseIPv6Fin s ip ell = some res) : res.length = 16 := by
  unfold parseIPv6Fin at h
  split at h
  · simp at h
  · split at h
    · cases ell with
      | none => simp at h
      | some e =>
        have he := hell e rfl
        simp only [Option.some.injEq] at h
        subst h
        simp only [List.length_append, List.length_take, List.length_replicate,
          List.length_drop]
        omega
    · cases ell with
      | some e => simp at h
      | none =>
        simp only [Option.some.injEq] at h
        subst h
        omega

theorem parseIPv6Loop_length (fuel : Nat) :
    ∀ (s : List Char) (ip : List Nat) (ell : Option Nat) (res : List Nat),
      ip.length % 2 = 0 → ip.length ≤ 16 →
      (∀ e, ell = some e → e ≤ ip.length) →
      parseIPv6Loop fuel s ip ell = some res → res.length = 16 := by
  induction fuel with
  | zero =>
    intro s ip ell res _ h16 hell h
    rw [parseIPv6Loop] at h
    split at h
    · simp at h
    · exact parseIPv6Fin_length s ip ell res h16 hell h
  | succ fuel ih =>
    intro s ip ell res h2 h16 hell h
    rw [parseIPv6Loop] at h
    split at h
    case isFalse => exact parseIPv6Fin_length s ip ell res h16 hell h
    case isTrue hlt =>
      simp only [] at h
      split at h
      · simp at h
      · split at h
        · -- embedded trailing IPv4
          split at h
          · simp at h
          · split at h
            case isTrue => simp at h
            case isFalse hroom =>
              cases h4 : parseIPv4Go s with
              | none => rw [h4] at h; simp at h
              | some ip4 =>
                rw [h4] at h
                have hl4 := parseIPv4Go_length s ip4 h4
                refine parseIPv6Fin_length _ _ _ _ ?_ ?_ h
                · simp only [List.length_append, List.length_drop, hl4]
                  omega
                · intro e he
                  have := hell e he
                  simp only [List.length_append]
                  omega
        · -- ordinary 16-bit group
          split at h
          · refine parseIPv6Fin_length _ _ _ _ ?_ ?_ h
            · simp only [List.length_append, List.length_cons, List.length_nil]
              omega
            · intro e he
              have := hell e he
              simp only [List.length_append]
              omega
          · split at h
            · simp at h
            · split at h
              · split at h
                · simp at h
                · split at h
                  · refine parseIPv6Fin_length _ _ _ _ ?_ ?_ h
                    · simp only [List.length_append, List.length_cons, List.length_nil]
                      omega
                    · intro e he
                      simp only [Option.some.injEq] at he
                      omega
                  · refine ih _ _ _ _ ?_ ?_ ?_ h
                    · simp only [List.length_append, List.length_cons, List.length_nil]
                      omega
                    · simp only [List.length_append, List.length_cons, List.length_nil]
                      omega
                    · intro e he
                      simp only [Option.some.injEq] at he
                      omega
              · refine ih _ _ _ _ ?_ ?_ ?_ h
                · simp only [List.length_append, List.length_cons, List.length_nil]
                  omega
                · simp only [List.length_append, List.length_cons, List.length_nil]
                  omega
                · intro e he
                  have := hell e he
                  simp only [List.length_append]
                  omega

theorem parseIPv6Go_length (s : List Char) (res : List Nat)
    (h : parseIPv6Go s = some res) : res.length = 16 := by
  rw [parseIPv6Go] at h
  split at h
  · split at h
    · simp only [Option.some.injEq] at h
      subst h
      simp
    · exact parseIPv6Loop_length 8 _ _ _ _ (by simp) (by simp)
        (by intro e he; simp only [Option.some.injEq] at he; omega) h
  · exact parseIPv6Loop_length 8 _ _ _ _ (by simp) (by simp) (by simp) h

theorem maskIP_v4mapped_length (p m : List Nat) (hp : p.length = 4)
    (hm : m.length = 4) : (maskIP (v4InV6 ++ p) m).length = 4 := by
  rw [maskIP]
  have h1 : ¬(m.length = 16 ∧ (v4InV6 ++ p).length = 4 ∧ (m.take 12).all (· = 255)) := by
    simp [hm]
  rw [if_neg h1]
  have htake : (v4InV6 ++ p).take 12 = v4InV6 := by
    have : (12 : Nat) = v4InV6.length := by decide
    rw [this, List.take_left]
  have h2 : m.length = 4 ∧ (v4InV6 ++ p).length = 16 ∧ (v4InV6 ++ p).take 12 = v4InV6 := by
    refine ⟨hm, by simp [v4InV6, hp], htake⟩
  rw [if_pos h2]
  have hdrop : (v4InV6 ++ p).drop 12 = p := by
    have : (12 : Nat) = v4InV6.length := by decide
    rw [this, List.drop_left]
  rw [hdrop]
  rw [if_neg (by omega : ¬p.length ≠ m.length)]
  simp [hp, hm]

theorem maskIP_v6_length (ip m : List Nat) (hip : ip.length = 16)
    (hm : m.length = 16) : (maskIP ip m).length = 16 := by
  rw [maskIP]
  rw [if_neg (by simp [hip] : ¬(m.length = 16 ∧ ip.length = 4 ∧ (m.take 12).all (· = 255)))]
  rw [if_neg (by simp [hm] : ¬(m.length = 4 ∧ ip.length = 16 ∧ ip.take 12 = v4InV6))]
  rw [if_neg (by omega : ¬ip.length ≠ m.length)]
  simp [hip, hm]

theorem ParseCIDR_shape (s : String) (a m : List Nat)
    (h : ParseCIDR s = some (a, m)) :
    (a.length = 4 ∧ m.length = 4) ∨ (a.length = 16 ∧ m.length = 16) := by
  rw [ParseCIDR] at h
  cases hidx : s.data.findIdx? (· == '/') with
  | none => rw [hidx] at h; simp at h
  | some i =>
    rw [hidx] at h
    simp only [] at h
    cases h4 : parseIPv4Go (s.data.take i) with
    | some ip =>
      rw [h4] at h
      simp only [] at h
      split at h
      · simp at h
      case isFalse hg =>
        push_neg at hg
        simp only [Option.some.injEq, Prod.mk.injEq] at h
        obtain ⟨ha, hmm⟩ := h
        obtain ⟨p, hp, hlp⟩ := parseIPv4Go_struct _ ip h4
        left
        have hmask : (cidrMask (dtoi (s.data.drop (i + 1))).1 (8 * 4)).length = 4 :=
          cidrMask_length_32 _ (by omega)
        constructor
        · rw [← ha, hp]
          exact maskIP_v4mapped_length p _ hlp hmask
        · rw [← hmm]; exact hmask
    | none =>
      rw [h4] at h
      cases h6 : parseIPv6Go (splitHostZone (s.data.take i)) with
      | none => rw [h6] at h; simp at h
      | some ip6 =>
        rw [h6] at h
        simp only [Option.getD_some] at h
        split at h
        · simp at h
        case isFalse hg =>
          push_neg at hg
          obtain ⟨hne, _, _, hle⟩ := hg
          simp only [Option.some.injEq, Prod.mk.injEq] at h
          obtain ⟨ha, hmm⟩ := h
          have hl6 : ip6.length = 16 := parseIPv6Go_length _ _ h6
          right
          have hmask : (cidrMask (dtoi (s.data.drop (i + 1))).1 (8 * 16)).length = 16 :=
            cidrMask_length_128 _ (by omega)
          constructor
          · rw [← ha]
            exact maskIP_v6_length _ _ hl6 hmask
          · rw [← hmm]; exact hmask

theorem to4_nil : to4 [] = [] := by decide

theorem ipNetContains_nil (a m : List Nat)
    (hs : (a.length = 4 ∧ m.length = 4) ∨ (a.length = 16 ∧ m.length = 16)) :
    ipNetContains a m [] = false := by
  have hnm : ∃ nn mm, networkNumberAndMask a m = some (nn, mm) ∧
      (nn.length = 4 ∨ nn.length = 16) := by
    rcases hs with ⟨h4a, h4m⟩ | ⟨h16a, h16m⟩
    · have hto : to4 a = a := by rw [to4]; simp [h4a]
      refine ⟨a, m, ?_, Or.inl h4a⟩
      rw [networkNumberAndMask, hto]
      have hane : a ≠ [] := by intro hh; rw [hh] at h4a; simp at h4a
      simp [hane, h4m, h4a]
    · by_cases hmap : (a.take 10).all (· = 0) ∧ a.get? 10 = some 255 ∧ a.get? 11 = some 255
      · have hto : to4 a = a.drop 12 := by
          rw [to4]
          rw [if_neg (by omega : ¬a.length = 4)]
          rw [if_pos ⟨h16a, hmap.1, hmap.2.1, hmap.2.2⟩]
        have hld : (a.drop 12).length = 4 := by simp [h16a]
        have hne : a.drop 12 ≠ [] := by
          intro hh; rw [hh] at hld; simp at hld
        refine ⟨a.drop 12, m.drop 12, ?_, Or.inl hld⟩
        rw [networkNumberAndMask, hto]
        simp only [if_pos hne]
        rw [if_neg (by omega : ¬m.length = 4), if_pos h16m]
        simp [hld]
      · have hto : to4 a = [] := by
          rw [to4]
          rw [if_neg (by omega : ¬a.length = 4)]
          rw [if_neg (by intro hh; exact hmap ⟨hh.2.1, hh.2.2⟩)]
        refine ⟨a, m, ?_, Or.inr h16a⟩
        rw [networkNumberAndMask, hto]
        simp only [ne_eq, not_true_eq_false, if_false, if_pos h16a]
        rw [if_neg (by omega : ¬m.length = 4), if_pos h16m]
        rw [if_neg (by omega : ¬a.length = 4)]
  obtain ⟨nn, mm, hnmEq, hlen⟩ := hnm
  simp only [ipNetContains, hnmEq, Option.getD_some, to4_nil, ne_eq,
    not_true_eq_false, if_false, List.length_nil]
  rw [if_pos (by omega)]

/-- C4: a host string that does not parse as an IP literal (`ParseIP`
returns Go's `nil`) is contained in no CIDR block — `0.0.0.0/0`
included — so when every pattern parses, `MatchRule` walks all of them
and returns `ErrNotFoundRule`. -/
theorem matchRule_nonIP_host (p : Profile) (h : String)
    (hok : ∀ r ∈ p.rules, ∀ ptn ∈ r.patterns, (ParseCIDR ptn).isSome)
    (hip : ParseIP h = []) :
    p.MatchRule h = MatchResult.errNotFoundRule := by
  rw [Profile.MatchRule, matchRules_eq_of_ok h p.rules hok]
  have hfind : p.rules.find?
      (fun r => r.patterns.any (fun ptn => patternMatches h ptn)) = none := by
    rw [List.find?_eq_none]
    intro r hr
    rw [Bool.not_eq_true, List.any_eq_false]
    intro ptn hptn
    obtain ⟨nm, hnm⟩ := Option.isSome_iff_exists.mp (hok r hr ptn hptn)
    have hshape := ParseCIDR_shape ptn nm.1 nm.2 (by rw [hnm])
    simp [patternMatches, hnm, hip, ipNetContains_nil nm.1 nm.2 hshape]
  rw [hfind]

def universalProfile : Profile :=
  { serverHost := "localhost", serverPort := "8080",
    rules := [{ name := "all", proxyType := "socks5", proxyIP := "127.0.0.1",
                port := "1080", patterns := ["0.0.0.0/0"] }] }

theorem matchRule_nonIP_host_witness :
    ParseIP "example.com" = [] ∧
      universalProfile.MatchRule "example.com" = MatchResult.errNotFoundRule :=
  ⟨by decide, matchRule_nonIP_host universalProfile "example.com" (by decide) (by decide)⟩

theorem matchRule_abort_on_bad_pattern_witness :
    ParseCIDR "not-a-cidr" = none ∧
      badProfile.MatchRule "10.1.2.3" = MatchResult.parseError "not-a-cidr" :=
  ⟨by decide,
   (matchRule_abort_on_bad_pattern badProfile "10.1.2.3" [safeRule] [] badPatternRule
      ["172.16.0.0/12"] ["0.0.0.0/0"] "not-a-cidr" rfl rfl
      (by decide) (by decide) (by decide)).1⟩

/-! ## Lemmas about the header model -/

theorem lookupH_setEntry (h : Header) (k : String) (vs : List String) (k2 : String) :
    lookupH (setEntry h k vs) k2 = if k2 = k then some vs else lookupH h k2 := by
  induction h with
  | nil =>
    simp only [setEntry, lookupH]
    by_cases hk : k = k2
    · simp [hk]
    · rw [if_neg hk, if_neg (fun hh : k2 = k => hk hh.symm)]
  | cons e rest ih =>
    simp only [setEntry]
    by_cases he : e.1 = k
    · rw [if_pos he]
      by_cases hk : k2 = k
      · simp [lookupH, hk]
      · have hk' : ¬k = k2 := fun hh => hk hh.symm
        simp only [lookupH, if_neg hk', he, if_neg hk]
    · rw [if_neg he]
      by_cases h2 : e.1 = k2
      · have : ¬k2 = k := fun hh => he (h2.trans hh)
        simp [lookupH, h2, this]
      · simp [lookupH, h2, ih]

theorem canonical_xff : canonicalMIMEHeaderKey "X-Forwarded-For" = "X-Forwarded-For" := by
  decide

/-- C2 as the code actually behaves (code bug): on a header set with no
`X-Forwarded-For` entry, `addHost2XForwardHeader` sets the header to the
empty string, not to the client host — `nextValue` is only assigned in
the `if prior, ok` branch. -/
theorem addXForward_absent_sets_empty :
    addHost2XForwardHeader [] "203.0.113.7" = [("X-Forwarded-For", [""])] ∧
      addHost2XForwardHeader [] "203.0.113.7" ≠ [("X-Forwarded-For", ["203.0.113.7"])] := by
  decide

/-- C7: with one or more prior `X-Forwarded-For` values, the client host
is appended to the end of the comma-joined chain; every prior entry
survives in order inside `strings.Join(prior, ", ")`. -/
theorem addXForward_appends_to_chain (h : Header) (host : String) (prior : List String)
    (hp : lookupH h "X-Forwarded-For" = some prior) (hne : prior ≠ []) :
    lookupH (addHost2XForwardHeader h host) "X-Forwarded-For" =
      some [String.intercalate ", " prior ++ ", " ++ host] := by
  simp only [addHost2XForwardHeader, hp, setH, canonical_xff]
  rw [lookupH_setEntry]
  simp

theorem addXForward_appends_to_chain_witness :
    lookupH [("X-Forwarded-For", ["a, b"])] "X-Forwarded-For" = some ["a, b"] ∧
      (["a, b"] : List String) ≠ [] ∧
      lookupH (addHost2XForwardHeader [("X-Forwarded-For", ["a, b"])] "c")
        "X-Forwarded-For" = some ["a, b, c"] :=
  ⟨by decide, by decide,
   (addXForward_appends_to_chain [("X-Forwarded-For", ["a, b"])] "c" ["a, b"]
      (by decide) (by decide)).trans (by decide)⟩

/-- C10 (implicit): when `X-Forwarded-For` arrived as several separate
header values, `addHost2XForwardHeader` replaces them with exactly one
value that comma-joins all prior values in order followed by the client
host (`header.Set` always collapses the key to a single value). -/
theorem addXForward_collapses_to_single (h : Header) (host : String) (prior : List String)
    (hp : lookupH h "X-Forwarded-For" = some prior) (hlen : 2 ≤ prior.length) :
    lookupH (addHost2XForwardHeader h host) "X-Forwarded-For" =
      some [String.intercalate ", " prior ++ ", " ++ host] := by
  simp only [addHost2XForwardHeader, hp, setH, canonical_xff]
  rw [lookupH_setEntry]
  simp

/-- Case-insensitive equality of header names, byte by byte (ASCII). -/
def ciEq (a b : String) : Bool := a.data.map Char.toLower == b.data.map Char.toLower

theorem char_toNat_ofNat (n : Nat) (h : n < 55296) : (Char.ofNat n).toNat = n := by
  rw [Char.ofNat, dif_pos (Or.inl h)]
  rfl

theorem toUpper_toLower (c : Char) : c.toLower.toUpper = c.toUpper := by
  simp only [Char.toLower, Char.toUpper]
  by_cases h : c.toNat ≥ 65 ∧ c.toNat ≤ 90
  · rw [if_pos h]
    have h32 : (Char.ofNat (c.toNat + 32)).toNat = c.toNat + 32 :=
      char_toNat_ofNat _ (by omega)
    rw [h32, if_pos (show c.toNat + 32 ≥ 97 ∧ c.toNat + 32 ≤ 122 by omega),
      if_neg (show ¬(c.toNat ≥ 97 ∧ c.toNat ≤ 122) by omega),
      Nat.add_sub_cancel, Char.ofNat_toNat]
  · rw [if_neg h]

theorem isTokenChar_toLower (c : Char) (h : isTokenChar c = true) :
    isTokenChar c.toLower = true := by
  simp only [Char.toLower]
  by_cases hu : c.toNat ≥ 65 ∧ c.toNat ≤ 90
  · rw [if_pos hu]
    have h32 : (Char.ofNat (c.toNat + 32)).toNat = c.toNat + 32 :=
      char_toNat_ofNat _ (by omega)
    simp only [isTokenChar, h32, Bool.or_eq_true, Bool.and_eq_true, decide_eq_true_eq]
    omega
  · rw [if_neg hu]
    exact h

theorem isTokenChar_of_toLower_eq (c d : Char) (hd : isTokenChar d = true)
    (h : c.toLower = d.toLower) : isTokenChar c = true := by
  by_cases hu : c.toNat ≥ 65 ∧ c.toNat ≤ 90
  · simp only [isTokenChar, Bool.or_eq_true, Bool.and_eq_true, decide_eq_true_eq]
    omega
  · have hcl : c.toLower = c := by
      simp only [Char.toLower]
      rw [if_neg hu]
    rw [hcl] at h
    rw [h]
    exact isTokenChar_toLower d hd

theorem canonChars_congr (b : Bool) (l1 l2 : List Char)
    (h : l1.map Char.toLower = l2.map Char.toLower) :
    canonChars b l1 = canonChars b l2 := by
  induction l1 generalizing b l2 with
  | nil =>
    cases l2 with
    | nil => rfl
    | cons d ds => simp at h
  | cons c cs ih =>
    cases l2 with
    | nil => simp at h
    | cons d ds =>
      simp only [List.map_cons, List.cons.injEq] at h
      obtain ⟨h1, h2⟩ := h
      have hup : c.toUpper = d.toUpper := by
        rw [← toUpper_toLower c, ← toUpper_toLower d, h1]
      simp only [canonChars]
      have hout : (if b then c.toUpper else c.toLower) =
          (if b then d.toUpper else d.toLower) := by
        cases b <;> simp [h1, hup]
      rw [hout, ih _ _ h2]

theorem all_token_of_map_toLower (k n : List Char)
    (h : k.map Char.toLower = n.map Char.toLower)
    (hn : n.all isTokenChar = true) : k.all isTokenChar = true := by
  induction k generalizing n with
  | nil => rfl
  | cons c cs ih =>
    cases n with
    | nil => simp at h
    | cons d ds =>
      simp only [List.map_cons, List.cons.injEq] at h
      simp only [List.all_cons, Bool.and_eq_true] at hn ⊢
      exact ⟨isTokenChar_of_toLower_eq c d hn.1 h.1, ih ds h.2 hn.2⟩

/-- Two header names that agree case-insensitively have the same
canonical MIME key, provided one of them is made of valid header-field
bytes (case mapping cannot change validity). -/
theorem canonical_eq_of_ciEq (k n : String) (h : ciEq k n = true)
    (hn : n.data.all isTokenChar = true) :
    canonicalMIMEHeaderKey k = canonicalMIMEHeaderKey n := by
  rw [ciEq] at h
  have hmap : k.data.map Char.toLower = n.data.map Char.toLower := by
    simpa using h
  rw [canonicalMIMEHeaderKey, canonicalMIMEHeaderKey,
    if_pos (all_token_of_map_toLower _ _ hmap hn), if_pos hn]
  exact congrArg String.mk (canonChars_congr true _ _ hmap)

/-- C6: on a header collection whose keys are in canonical form (the
invariant `http.Header` maintains for every header parsed from the wire),
`removeHopByHopHeader` removes exactly the entries whose name equals one
of the five hop-by-hop names up to ASCII case, and leaves every other
entry untouched, in place and in order. -/
theorem removeHopByHop_exact (h : Header)
    (hc : ∀ e ∈ h, e.1 = canonicalMIMEHeaderKey e.1) :
    removeHopByHopHeader h =
      h.filter (fun e => !(hopByHopHeaders.any (fun n => ciEq e.1 n))) := by
  simp only [removeHopByHopHeader, hopByHopHeaders, List.foldl_cons, List.foldl_nil, delH]
  rw [List.filter_filter, List.filter_filter, List.filter_filter, List.filter_filter]
  apply List.filter_congr
  intro e he
  have hcan := hc e he
  by_cases hany : (["Proxy-Connection", "Keep-Alive", "TE", "Transfer-Encoding",
      "Upgrade"] : List String).any (fun n => ciEq e.1 n) = true
  · rw [hany, Bool.not_true]
    simp only [List.any_cons, List.any_nil, Bool.or_eq_true, Bool.or_false] at hany
    have htok : ∀ n : String, ciEq e.1 n = true → n.data.all isTokenChar = true →
        e.1 = canonicalMIMEHeaderKey n :=
      fun n hn htn => hcan.trans (canonical_eq_of_ciEq _ _ hn htn)
    rcases hany with h1 | h2 | h3 | h4 | h5
    · rw [htok _ h1 (by decide)]; decide
    · rw [htok _ h2 (by decide)]; decide
    · rw [htok _ h3 (by decide)]; decide
    · rw [htok _ h4 (by decide)]; decide
    · rw [htok _ h5 (by decide)]; decide
  · rw [Bool.not_eq_true] at hany
    rw [hany, Bool.not_false]
    have hall := List.any_eq_false.mp hany
    have hne : ∀ n : String, ciEq e.1 n = false →
        ciEq (canonicalMIMEHeaderKey n) n = true → e.1 ≠ canonicalMIMEHeaderKey n := by
      intro n hf ht hk
      rw [hk, ht] at hf
      exact Bool.noConfusion hf
    have hb : ∀ n : String, n ∈ (["Proxy-Connection", "Keep-Alive", "TE",
        "Transfer-Encoding", "Upgrade"] : List String) →
        ciEq (canonicalMIMEHeaderKey n) n = true → (e.1 != canonicalMIMEHeaderKey n) = true := by
      intro n hmem ht
      exact bne_iff_ne.mpr
        (hne n (Bool.not_eq_true _ ▸ (by simpa using hall n hmem)) ht)
    have b1 := hb "Proxy-Connection" (by decide) (by decide)
    have b2 := hb "Keep-Alive" (by decide) (by decide)
    have b3 := hb "TE" (by decide) (by decide)
    have b4 := hb "Transfer-Encoding" (by decide) (by decide)
    have b5 := hb "Upgrade" (by decide) (by decide)
    simp [b1, b2, b3, b4, b5]

def sampleHeader : Header :=
  [("Te", ["trailers"]), ("Content-Type", ["text/html"]), ("Upgrade", ["h2c"]),
   ("X-Forwarded-For", ["1.2.3.4"])]

theorem removeHopByHop_exact_witness :
    (∀ e ∈ sampleHeader, e.1 = canonicalMIMEHeaderKey e.1) ∧
      removeHopByHopHeader sampleHeader =
        [("Content-Type", ["text/html"]), ("X-Forwarded-For", ["1.2.3.4"])] :=
  ⟨by decide, (removeHopByHop_exact sampleHeader (by decide)).trans (by decide)⟩

theorem addXForward_collapses_to_single_witness :
    lookupH [("X-Forwarded-For", ["a", "b"])] "X-Forwarded-For" = some ["a", "b"] ∧
      2 ≤ (["a", "b"] : List String).length ∧
      lookupH (addHost2XForwardHeader [("X-Forwarded-For", ["a", "b"])] "c")
        "X-Forwarded-For" = some ["a, b, c"] :=
  ⟨by decide, by decide,
   (addXForward_collapses_to_single [("X-Forwarded-For", ["a", "b"])] "c" ["a", "b"]
      (by decide) (by decide)).trans (by decide)⟩

/-- The values Go's `h[k]` yields, with the `nil` slice for a missing key:
the observation through which the additive-copy property is stated. -/
def valuesH (h : Header) (k : String) : List String := (lookupH h k).getD []

theorem valuesH_addEntry (h : Header) (k v : String) (k2 : String) :
    valuesH (addEntry h k v) k2 =
      if k2 = k then valuesH h k2 ++ [v] else valuesH h k2 := by
  induction h with
  | nil =>
    simp only [addEntry, valuesH, lookupH]
    by_cases hk : k2 = k
    · simp [hk]
    · rw [if_neg (fun hh : k = k2 => hk hh.symm), if_neg hk]
  | cons e rest ih =>
    simp only [addEntry]
    by_cases he : e.1 = k
    · rw [if_pos he]
      by_cases hk : k2 = k
      · have h2 : e.1 = k2 := he.trans hk.symm
        simp [valuesH, lookupH, he, hk, h2]
      · have h2 : ¬e.1 = k2 := fun hh => hk (hh.symm.trans he)
        simp only [valuesH, lookupH, if_neg (he ▸ h2), if_neg h2, if_neg hk]
    · rw [if_neg he]
      by_cases h2 : e.1 = k2
      · have : ¬k2 = k := fun hh => he (h2.trans hh)
        simp [valuesH, lookupH, h2, this]
      · simp only [valuesH, lookupH, if_neg h2]
        exact ih

theorem valuesH_addValues (k0 : String) (vs : List String) :
    ∀ (d : Header) (k2 : String),
      valuesH (vs.foldl (fun d2 v => addH d2 k0 v) d) k2 =
        if k2 = canonicalMIMEHeaderKey k0 then valuesH d k2 ++ vs else valuesH d k2 := by
  induction vs with
  | nil =>
    intro d k2
    simp only [List.foldl_nil]
    split <;> simp
  | cons v vt ih =>
    intro d k2
    simp only [List.foldl_cons]
    rw [ih]
    simp only [addH, valuesH_addEntry]
    by_cases hk : k2 = canonicalMIMEHeaderKey k0 <;> simp [hk]

theorem lookupH_eq_none (h : Header) (k : String) (hk : k ∉ h.map Prod.fst) :
    lookupH h k = none := by
  induction h with
  | nil => rfl
  | cons e rest ih =>
    simp only [List.map_cons, List.mem_cons] at hk
    push_neg at hk
    simp only [lookupH, if_neg (fun hh : e.1 = k => hk.1 hh.symm)]
    exact ih hk.2

/-- C8: `copyHeader` appends every value of every `src` header onto `dst`
(per key: the `dst` values stay as a prefix, the `src` values follow in
order), under the Go-map invariants that `src`'s keys are pairwise
distinct and canonical. -/
theorem copyHeader_additive (dst src : Header)
    (hc : ∀ e ∈ src, e.1 = canonicalMIMEHeaderKey e.1)
    (hn : (src.map Prod.fst).Nodup) :
    ∀ k, valuesH (copyHeader dst src) k = valuesH dst k ++ valuesH src k := by
  induction src generalizing dst with
  | nil =>
    intro k
    simp [copyHeader, valuesH, lookupH]
  | cons e rest ih =>
    intro k
    simp only [List.map_cons, List.nodup_cons] at hn
    have hrec := ih (e.2.foldl (fun d2 v => addH d2 e.1 v) dst)
      (fun x hx => hc x (List.mem_cons_of_mem e hx)) hn.2 k
    simp only [copyHeader, List.foldl_cons] at hrec ⊢
    rw [hrec, valuesH_addValues e.1 e.2 dst k, ← hc e (List.mem_cons_self e rest)]
    by_cases hk : k = e.1
    · rw [if_pos hk]
      have hrest : valuesH rest k = [] := by
        rw [valuesH, lookupH_eq_none rest k (hk ▸ hn.1)]
        rfl
      rw [hrest]
      simp [valuesH, lookupH, hk.symm]
    · rw [if_neg hk]
      have hhead : ¬e.1 = k := fun hh => hk hh.symm
      simp [valuesH, lookupH, if_neg hhead]

def dstHeader : Header := [("Content-Type", ["text/html"]), ("Set-Cookie", ["a=1"])]

def srcHeader : Header := [("Set-Cookie", ["b=2", "c=3"]), ("Server", ["nginx"])]

theorem copyHeader_additive_witness :
    (∀ e ∈ srcHeader, e.1 = canonicalMIMEHeaderKey e.1) ∧
      (srcHeader.map Prod.fst).Nodup ∧
      valuesH (copyHeader dstHeader srcHeader) "Set-Cookie" = ["a=1", "b=2", "c=3"] ∧
      valuesH (copyHeader dstHeader srcHeader) "Server" = ["nginx"] :=
  ⟨by decide, by decide,
   (copyHeader_additive dstHeader srcHeader (by decide) (by decide) "Set-Cookie").trans
     (by decide),
   (copyHeader_additive dstHeader srcHeader (by decide) (by decide) "Server").trans
     (by decide)⟩

/-! ## The dispatcher claims -/

/-- C9: a request whose target scheme is neither `http` nor `https` is
answered with status 400 and the handler stops there: the outcome is an
error response, not a forward, and it does not depend on the profile
(no host extraction, no rule matching, no outbound call). -/
theorem scheme_gate_rejects (p : Profile) (req : Request)
    (h1 : req.scheme ≠ "http") (h2 : req.scheme ≠ "https") :
    proxyHandler p req =
        Outcome.respondError 400 ("unsupported protocal scheme " ++ req.scheme) ∧
      ∀ q : Profile, proxyHandler q req = proxyHandler p req := by
  constructor
  · rw [proxyHandler, if_pos ⟨h1, h2⟩]
  · intro q
    rw [proxyHandler, if_pos ⟨h1, h2⟩, proxyHandler, if_pos ⟨h1, h2⟩]

def emptyProfile : Profile :=
  { serverHost := "localhost", serverPort := "8080", rules := [] }

def ftpReq : Request :=
  { scheme := "ftp", urlHost := "example.com:21", header := [], requestURI := "/" }

theorem scheme_gate_rejects_witness :
    ("ftp" : String) ≠ "http" ∧ ("ftp" : String) ≠ "https" ∧
      proxyHandler emptyProfile ftpReq =
        Outcome.respondError 400 "unsupported protocal scheme ftp" :=
  ⟨by decide, by decide,
   ((scheme_gate_rejects emptyProfile ftpReq (by decide) (by decide)).1).trans (by decide)⟩

def malformedReq : Request :=
  { scheme := "http", urlHost := "example.com", header := [], requestURI := "/" }

/-- C5 (code bug in the log-based `main.go` variant): on a request target
whose authority has no port, `net.SplitHostPort` fails; the zap-based
`src/main.go` answers that client with status 500 and returns, but the
log-based variant calls `log.Fatalf`, which terminates the whole process
before its (dead) `http.Error` line — contradicting the policy that every
failure is handled at single-request scope. -/
theorem malformed_target_exits_process :
    splitHostPort malformedReq.urlHost.data = none ∧
      proxyHandlerOld emptyProfile malformedReq = Outcome.processExit ∧
      proxyHandler emptyProfile malformedReq =
        Outcome.respondError 500 "unexpected error" := by
  refine ⟨by decide, by decide, by decide⟩

end H2S
